import Mathlib

/-!
Verification of the coverage-guided test-synthesis loop in
`examples/cover_bot.py`.

The Python source is shallowly embedded: Python strings become Lean `String`
values (operated on through their underlying `List Char`), the external
completion service and the external coverage engine (the `coverage` package
together with the dynamic import of the composed artifact) are modelled as
oracle parameters, and the module-level refinement loop becomes a structurally
recursive function over the attempt budget.

Python string primitives used by the source (`splitlines`, `startswith`,
`split`, `strip`, `count`, `textwrap.dedent`, `"sep".join`) are re-implemented
below over `List Char`.  `splitlines` is modelled for the line boundaries
`"\n"`, `"\r\n"` and `"\r"` (the exotic Unicode boundaries Python additionally
recognises are not modelled).  `strip` is modelled for ASCII whitespace.
-/

/-- Python's notion of an indentation character (`[ \t]`), as used by
`textwrap.dedent`. -/
def isIndentChar (c : Char) : Bool :=
  c = ' ' || c = '\t'

/-- ASCII whitespace, the model of the character class stripped by Python's
`str.strip()`. -/
def isPyWS (c : Char) : Bool :=
  c = ' ' || c = '\t' || c = '\n' || c = '\r' || c = '\x0b' || c = '\x0c'

/-- Boolean prefix test on character lists: `isPrefixL pat xs` holds when
`pat` is a prefix of `xs`. -/
def isPrefixL : List Char → List Char → Bool
  | [], _ => true
  | _ :: _, [] => false
  | a :: as, b :: bs => a = b && isPrefixL as bs

/-- Split a character list at every occurrence of the single character `c`
(the model of Python's `text.split(c)` for a one-character separator). -/
def splitChar (c : Char) : List Char → List (List Char)
  | [] => [[]]
  | x :: xs =>
    if x = c then [] :: splitChar c xs
    else
      match splitChar c xs with
      | [] => [[x]]
      | l :: ls => (x :: l) :: ls

/-- Model of Python's `str.splitlines()` for the boundaries `"\r\n"`, `"\r"`
and `"\n"`: the list of lines, without terminators and without a trailing
empty line. -/
def splitlinesL : List Char → List (List Char)
  | [] => []
  | '\r' :: '\n' :: rest => [] :: splitlinesL rest
  | '\r' :: rest => [] :: splitlinesL rest
  | '\n' :: rest => [] :: splitlinesL rest
  | c :: rest =>
    match splitlinesL rest with
    | [] => [[c]]
    | l :: ls => (c :: l) :: ls

/-- Worker for the model of Python's `str.split(sep)`: structural recursion
on a fuel argument (every recursive call consumes at least one character, so
any fuel of at least the list's length gives the untruncated behaviour). -/
def splitOnAux (sep : List Char) : Nat → List Char → List (List Char)
  | _, [] => [[]]
  | 0, x :: xs => [x :: xs]
  | fuel + 1, c :: cs =>
    if sep ≠ [] ∧ isPrefixL sep (c :: cs) = true then
      [] :: splitOnAux sep fuel (List.drop sep.length (c :: cs))
    else
      (c :: (splitOnAux sep fuel cs).headD []) :: (splitOnAux sep fuel cs).tail

/-- Model of Python's `str.split(sep)` for a non-empty string separator:
split at every non-overlapping occurrence of `sep`, scanning left to
right. -/
def splitOnL (sep xs : List Char) : List (List Char) :=
  splitOnAux sep xs.length xs

theorem splitOnAux_fuel_irrel (sep : List Char) :
    ∀ fuel fuel' xs, xs.length ≤ fuel → xs.length ≤ fuel' →
      splitOnAux sep fuel xs = splitOnAux sep fuel' xs := by
  intro fuel
  induction fuel with
  | zero =>
    intro fuel' xs hf hf'
    rcases xs with _ | ⟨c, cs⟩
    · cases fuel' <;> rfl
    · simp at hf
  | succ n ih =>
    intro fuel' xs hf hf'
    rcases xs with _ | ⟨c, cs⟩
    · cases fuel' <;> rfl
    · rcases fuel' with _ | n'
      · simp at hf'
      · simp only [splitOnAux]
        by_cases h : sep ≠ [] ∧ isPrefixL sep (c :: cs) = true
        · rw [if_pos h, if_pos h]
          have h0 : 0 < sep.length := List.length_pos.mpr h.1
          have hd : (List.drop sep.length (c :: cs)).length ≤ n := by
            simp only [List.length_drop, List.length_cons]
            simp only [List.length_cons] at hf
            omega
          have hd' : (List.drop sep.length (c :: cs)).length ≤ n' := by
            simp only [List.length_drop, List.length_cons]
            simp only [List.length_cons] at hf'
            omega
          rw [ih _ _ hd hd']
        · rw [if_neg h, if_neg h]
          have hc : cs.length ≤ n := by simp at hf; omega
          have hc' : cs.length ≤ n' := by simp at hf'; omega
          rw [ih _ _ hc hc']

theorem splitOnL_nil (sep : List Char) : splitOnL sep [] = [[]] := rfl

theorem splitOnL_cons_match (sep : List Char) (c : Char) (cs : List Char)
    (h : sep ≠ [] ∧ isPrefixL sep (c :: cs) = true) :
    splitOnL sep (c :: cs) = [] :: splitOnL sep (List.drop sep.length (c :: cs)) := by
  have h0 : 0 < sep.length := List.length_pos.mpr h.1
  show splitOnAux sep (c :: cs).length (c :: cs) = _
  simp only [List.length_cons, splitOnAux]
  rw [if_pos h]
  unfold splitOnL
  rw [splitOnAux_fuel_irrel sep cs.length (List.drop sep.length (c :: cs)).length _
    (by simp only [List.length_drop, List.length_cons]; omega) (Nat.le_refl _)]

theorem splitOnL_cons_nomatch (sep : List Char) (c : Char) (cs : List Char)
    (h : ¬(sep ≠ [] ∧ isPrefixL sep (c :: cs) = true)) :
    splitOnL sep (c :: cs) =
      (c :: (splitOnL sep cs).headD []) :: (splitOnL sep cs).tail := by
  show splitOnAux sep (c :: cs).length (c :: cs) = _
  simp only [List.length_cons, splitOnAux]
  rw [if_neg h]
  rfl

/-- The prefix of a character list up to (excluding) the first occurrence of
the separator `sep`; the head of `splitOnL sep`. -/
def takeUntilSeq (sep : List Char) : List Char → List Char
  | [] => []
  | c :: cs =>
    if sep ≠ [] ∧ isPrefixL sep (c :: cs) = true then []
    else c :: takeUntilSeq sep cs

/-- Join character lists with the single character `c` between consecutive
elements (the model of Python's `c.join(...)` / line re-joining). -/
def intercalateChar (c : Char) : List (List Char) → List Char
  | [] => []
  | [l] => l
  | l :: ls => l ++ c :: intercalateChar c ls

/-- Longest common prefix of two character lists. -/
def lcp2 : List Char → List Char → List Char
  | a :: as, b :: bs => if a = b then a :: lcp2 as bs else []
  | _, _ => []

/-- Model of Python's `str.strip()`: drop ASCII whitespace from both ends. -/
def stripL (xs : List Char) : List Char :=
  ((xs.dropWhile isPyWS).reverse.dropWhile isPyWS).reverse

/-- Model of Python's `str.lstrip()` (leading-whitespace trimming, used only
to formalise the spec's matching rule for claim C5). -/
def lstripL (xs : List Char) : List Char :=
  xs.dropWhile isPyWS

/-- Occurrences of `'\n'`, the model of Python's `text.count("\n")`. -/
def countNL (xs : List Char) : Nat :=
  xs.count '\n'

/-! ## String-level wrappers for the Python primitives -/

/-- Python `s.splitlines()`. -/
def pythonSplitlines (s : String) : List String :=
  (splitlinesL s.data).map String.mk

/-- Python `s.startswith(pre)`. -/
def pyStartsWith (s pre : String) : Bool :=
  isPrefixL pre.data s.data

/-- Python `s.strip()`. -/
def pyStrip (s : String) : String :=
  String.mk (stripL s.data)

/-- Python `s.lstrip()` (used only to formalise the spec's wording). -/
def pyLstrip (s : String) : String :=
  String.mk (lstripL s.data)

/-- Python `s.count("\n")`. -/
def countNewlines (s : String) : Nat :=
  countNL s.data

/-- The number of lines of a string, `len(s.splitlines())`. -/
def pythonLineCount (s : String) : Nat :=
  (pythonSplitlines s).length

/-- Model of `textwrap.dedent`, step 1: a line consisting solely of `[ \t]`
characters is normalised to the empty line. -/
def normWSLine (l : List Char) : List Char :=
  if l ≠ [] ∧ l.all isIndentChar = true then [] else l

/-- Leading `[ \t]` indentation of a line, as matched by `textwrap.dedent`'s
leading-whitespace pattern. -/
def lineIndent (l : List Char) : List Char :=
  l.takeWhile isIndentChar

/-- Model of `textwrap.dedent`, step 2: the margin is the longest common
prefix of the indentations of all lines that still have content after
whitespace-only normalisation. -/
def dedentMargin (lines : List (List Char)) : List Char :=
  match (lines.filter (fun l => !l.isEmpty)).map lineIndent with
  | [] => []
  | ind :: inds => List.foldl lcp2 ind inds

/-- Model of `textwrap.dedent`, step 3: remove the margin from every line
that starts with it (Python's `re.sub(r"(?m)^" + margin, "", text)`). -/
def removeMargin (margin l : List Char) : List Char :=
  if isPrefixL margin l then l.drop margin.length else l

/-- Model of `textwrap.dedent(text)`: normalise whitespace-only lines,
compute the common margin of the content lines, and strip it from the start
of every line. -/
def pythonDedent (s : String) : String :=
  let ls := (splitChar '\n' s.data).map normWSLine
  String.mk (intercalateChar '\n' (ls.map (removeMargin (dedentMargin ls))))

/-! ## The source functions of `examples/cover_bot.py`

Embedding of `collect_test_functions` (the response parser), `create_call`
and the artifact composition, `get_missing_coverage_lines` (with the external
coverage engine as an oracle), `get_missing_lines_for_completion`, the two
prompt templates and `query`, and the module-level refinement loop. -/

/-- Embeds `line.split("def")[1].split("(")[0].strip()` from
`collect_test_functions`.  The `[1]` index is total in the source because the
line is only processed when it starts with `"def test"`; a missing index is
modelled by the empty-list default. -/
def extractTestName (line : String) : String :=
  String.mk (stripL ((splitOnL "(".data
    ((splitOnL "def".data line.data).getD 1 [])).getD 0 []))

/-- Embeds `collect_test_functions`: iterate over the lines of the response,
and for each line that starts with `"def test"` append the extracted name to
the accumulator. -/
def collect_test_functions (s : String) : List String :=
  List.foldl
    (fun acc line =>
      if pyStartsWith line "def test" then acc ++ [extractTestName line]
      else acc)
    [] (pythonSplitlines s)

/-- Embeds `create_call`: the guarded invocation text for one test-entry
point, `dedent` applied to the interpolated `try/except AssertionError`
template. -/
def create_call (name : String) : String :=
  pythonDedent ("\n    try:\n        " ++ name ++ "()\n    except AssertionError:\n        pass")

/-- Embeds the composed artifact `c1` built inside
`get_missing_lines_for_completion`: the f-string
`"\n{target_code}\n\n{response}\n\n{run_statements}\n    "` with
`run_statements = "\n".join(create_call(f) for f in names)`. -/
def composeArtifact (target_code response : String) (names : List String) : String :=
  "\n" ++ target_code ++ "\n\n" ++ response ++ "\n\n" ++
    String.intercalate "\n" (names.map create_call) ++ "\n    "

/-- Exception classes relevant to the source: `SyntaxError` (raised by
`get_missing_lines_for_completion` when no test is found, and by the import
of a syntactically invalid artifact; the only class caught by the loop),
`AssertionError` (the only class caught by the guarded invocations), and a
representative for every other runtime-error class. -/
inductive PyExc where
  | syntaxError
  | assertionError
  | otherError
deriving DecidableEq, Repr

/-- Outcome of materialising and executing the composed artifact under the
external coverage engine: either the set `analysis.missing` of line numbers
that did not execute, or an exception raised during module-level execution. -/
inductive ExecOutcome where
  | ok (missing : Finset Nat)
  | raises (e : PyExc)

/-- Model of Python's `sorted(...)` applied to a set of naturals: the
ascending enumeration of a `Finset`, computed by insertion sort on the
underlying multiset (well defined because two sorted permutations of the
same multiset are equal). -/
def pySortedOfFinset (s : Finset Nat) : List Nat :=
  Quot.liftOn s.val (fun l => List.insertionSort (· ≤ ·) l)
    (fun a b hab => List.eq_of_perm_of_sorted
      (((List.perm_insertionSort _ a).trans hab).trans
        (List.perm_insertionSort _ b).symm)
      (List.sorted_insertionSort _ a) (List.sorted_insertionSort _ b))

/-- The ascending enumeration of a `Finset Nat` is strictly sorted. -/
theorem pySortedOfFinset_sorted_lt (s : Finset Nat) :
    List.Sorted (· < ·) (pySortedOfFinset s) := by
  rcases s with ⟨val, nodup⟩
  induction val using Quot.inductionOn with
  | h l =>
    refine List.Sorted.lt_of_le (List.sorted_insertionSort _ l) ?_
    have hl : l.Nodup := nodup
    exact ((List.perm_insertionSort (fun a b => a ≤ b) l).nodup_iff).2 hl

/-- Embeds `get_missing_coverage_lines`.  Writing the artifact to
`test_mod.py`, importing it under instrumentation and analysing it are
external effects, modelled by the `exec` oracle; the function itself returns
`sorted(analysis.missing)` on success and propagates any exception raised
during the import (the `finally` clause only stops the instrumentation). -/
def get_missing_coverage_lines (exec : String → ExecOutcome) (code : String) :
    Except PyExc (List Nat) :=
  match exec code with
  | ExecOutcome.ok missing => Except.ok (pySortedOfFinset missing)
  | ExecOutcome.raises e => Except.error e

/-- Embeds `get_missing_lines_for_completion`: parse the test-entry names
(raising `SyntaxError` when none are found), compose the artifact, measure
coverage, and keep — as decimal strings — only the missing lines numerically
below `target_code.count("\n")`. -/
def get_missing_lines_for_completion (exec : String → ExecOutcome)
    (target_code response : String) : Except PyExc (List String) :=
  let test_function_names := collect_test_functions response
  if test_function_names = [] then Except.error PyExc.syntaxError
  else
    match get_missing_coverage_lines exec (composeArtifact target_code response test_function_names) with
    | Except.ok lines =>
      Except.ok ((lines.filter (fun ln => ln < countNewlines target_code)).map
        (fun ln => toString ln))
    | Except.error e => Except.error e

/-- Modelled from the spec: the `@text.prompt` template renderer of
`outlines.text` is not under `src/`; per spec §4.4 the initial prompt is a
deterministic rendering of the `construct_prompt` docstring template with the
target code substituted, depending on nothing else. -/
def construct_prompt (target_code : String) : String :=
  "The Python module code is as follows:\n\n" ++ target_code ++
    "\n\nPrint only the code for a completed version of the following Python function named `test_some_function` that attains full coverage over the Python module code above:\n\ndef test_some_function():\n"

/-- Modelled from the spec: the follow-up form of the prompt template
(`construct_prompt_test_code`), rendering the target code, the missing-line
list joined with `" and "`, and the previous test code. -/
def construct_prompt_test_code (target_code test_code : String)
    (lines : List String) : String :=
  "The Python module code is as follows:\n\n" ++ target_code ++
    "\n\nPrint only the code for a completed version of the following Python function named `test_some_function` that attains coverage for lines " ++
    String.intercalate " and " lines ++
    " in the Python module code above:\n\n" ++ test_code ++ "\n"

/-- Embeds `query`: build the initial prompt when the current test code is
empty and the follow-up prompt otherwise, then call the completion service on
the prompt; returns `(prompt, response)`. -/
def query (completer : String → String) (target_code test_code : String)
    (lines : List String) : String × String :=
  let prompt :=
    if test_code = "" then construct_prompt target_code
    else construct_prompt_test_code target_code test_code lines
  (prompt, completer prompt)

/-- One record of the session transcript: the prompt sent, the raw response,
and the outcome of `get_missing_lines_for_completion` for that attempt
(`Except.ok` with the filtered missing-line strings, or the exception it
raised). -/
structure AttemptRecord where
  prompt : String
  response : String
  outcome : Except PyExc (List String)

/-- Final status of one session of the module-level refinement loop:
`covered` when an attempt's filtered missing-line list was empty (the `break`),
`budgetExhausted` when the `for` loop ran out of attempts, and `crashed e`
when an exception that the loop does not catch (anything but `SyntaxError`)
propagated out of the attempt. -/
inductive SessionStatus where
  | covered
  | budgetExhausted
  | crashed (e : PyExc)
deriving DecidableEq, Repr

/-- Result of one session: the transcript (one record per attempt made) and
the final status. -/
structure SessionResult where
  log : List AttemptRecord
  status : SessionStatus

/-- Embeds the module-level refinement loop
`for i in range(n_coverage_attempts): ...` for one target function.
`fuel` is the number of attempts still available, `i` the index of the next
attempt, `test_code` and `lines` the state threaded between attempts, and
`log` the transcript accumulated so far.  `completer` and `exec` are the
external completion service and the artifact-execution oracle, indexed by the
attempt number so that the external world may answer differently on every
call.  Mirrors the source exactly: the response becomes the new test code;
on success with an empty filtered line list the loop breaks; a raised
`SyntaxError` is caught and resets the test code to `""` (keeping `lines`);
any other exception propagates and ends the session. -/
def runLoop (completer : Nat → String → String) (exec : Nat → String → ExecOutcome)
    (target_code : String) :
    Nat → Nat → String → List String → List AttemptRecord → SessionResult
  | 0, _, _, _, log => ⟨log, SessionStatus.budgetExhausted⟩
  | fuel + 1, i, test_code, lines, log =>
    match get_missing_lines_for_completion (exec i) target_code
        (query (completer i) target_code test_code lines).2 with
    | Except.ok ls =>
      if ls.length = 0 then
        ⟨log ++ [⟨(query (completer i) target_code test_code lines).1,
          (query (completer i) target_code test_code lines).2, Except.ok ls⟩],
          SessionStatus.covered⟩
      else
        runLoop completer exec target_code fuel (i + 1)
          (query (completer i) target_code test_code lines).2 ls
          (log ++ [⟨(query (completer i) target_code test_code lines).1,
            (query (completer i) target_code test_code lines).2, Except.ok ls⟩])
    | Except.error e =>
      if e = PyExc.syntaxError then
        runLoop completer exec target_code fuel (i + 1) "" lines
          (log ++ [⟨(query (completer i) target_code test_code lines).1,
            (query (completer i) target_code test_code lines).2, Except.error e⟩])
      else
        ⟨log ++ [⟨(query (completer i) target_code test_code lines).1,
          (query (completer i) target_code test_code lines).2, Except.error e⟩],
          SessionStatus.crashed e⟩

/-- One full session over a target function with attempt budget `budget`:
the loop started with empty test code, empty missing-line list and empty
transcript (the source's `test_code = ""`, `lines: list = []`,
`target_dialog = []`). -/
def runSession (completer : Nat → String → String) (exec : Nat → String → ExecOutcome)
    (target_code : String) (budget : Nat) : SessionResult :=
  runLoop completer exec target_code budget 0 "" [] []

/-- The 1-based line number, inside the composed artifact, of the first line
on which the injected response (and after it the invocation statements) can
appear: the artifact prefix `"\n" ++ target_code ++ "\n\n"` contains
`countNewlines target_code + 3` newlines, so the response starts on line
`countNewlines target_code + 4`. -/
def testRegionFirstLine (target_code : String) : Nat :=
  countNewlines target_code + 4

/-- Models the guarded invocation `try: name() except AssertionError: pass`
emitted by `create_call`: given the behaviour of the called entry point
(`none` for normal return, `some e` for an exception of class `e`), the
behaviour of the guarded statement. -/
def runGuardedCall (behavior : Option PyExc) : Option PyExc :=
  match behavior with
  | some PyExc.assertionError => none
  | b => b

/-- Formalisation of claim C5's matching rule, following the spec's words:
a line qualifies if, after leading-whitespace trimming, it begins with the
function-declaration keyword immediately followed by the test-name prefix
(`"def test"`), and the declared name is the substring between the
declaration keyword and the parameter-list opener, trimmed of whitespace. -/
def specCollectTestFunctions (s : String) : List String :=
  ((pythonSplitlines s).filter
      (fun l => pyStartsWith (pyLstrip l) "def test")).map
    (fun l => pyStrip (String.mk (((pyLstrip l).data.drop 3).takeWhile (fun c => c != '('))))

/-! ## Lemmas about the refinement loop -/

theorem runLoop_log_extend (completer : Nat → String → String)
    (exec : Nat → String → ExecOutcome) (t : String) :
    ∀ fuel i tc ls log, ∃ new,
      (runLoop completer exec t fuel i tc ls log).log = log ++ new ∧
      new.length ≤ fuel := by
  intro fuel
  induction fuel with
  | zero => intro i tc ls log; exact ⟨[], by simp [runLoop]⟩
  | succ n ih =>
    intro i tc ls log
    unfold runLoop
    split
    · next ls' heq =>
      split
      · exact ⟨[⟨(query (completer i) t tc ls).1, (query (completer i) t tc ls).2,
          Except.ok ls'⟩], rfl, by simp⟩
      · obtain ⟨new, hnew, hlen⟩ := ih (i+1) ((query (completer i) t tc ls).2) ls'
          (log ++ [⟨(query (completer i) t tc ls).1, (query (completer i) t tc ls).2,
            Except.ok ls'⟩])
        refine ⟨⟨(query (completer i) t tc ls).1, (query (completer i) t tc ls).2,
          Except.ok ls'⟩ :: new, ?_, ?_⟩
        · rw [hnew]; simp
        · simpa using Nat.succ_le_succ hlen
    · next e heq =>
      split
      · obtain ⟨new, hnew, hlen⟩ := ih (i+1) "" ls
          (log ++ [⟨(query (completer i) t tc ls).1, (query (completer i) t tc ls).2,
            Except.error e⟩])
        refine ⟨⟨(query (completer i) t tc ls).1, (query (completer i) t tc ls).2,
          Except.error e⟩ :: new, ?_, ?_⟩
        · rw [hnew]; simp
        · simpa using Nat.succ_le_succ hlen
      · exact ⟨[⟨(query (completer i) t tc ls).1, (query (completer i) t tc ls).2,
          Except.error e⟩], rfl, by simp⟩

theorem runLoop_log_mem (completer : Nat → String → String)
    (exec : Nat → String → ExecOutcome) (t : String)
    (P : AttemptRecord → Prop)
    (hP : ∀ i tc ls, P ⟨(query (completer i) t tc ls).1, (query (completer i) t tc ls).2,
      get_missing_lines_for_completion (exec i) t (query (completer i) t tc ls).2⟩) :
    ∀ fuel i tc ls log, (∀ r ∈ log, P r) →
      ∀ r ∈ (runLoop completer exec t fuel i tc ls log).log, P r := by
  intro fuel
  induction fuel with
  | zero => intro i tc ls log hlog; simpa [runLoop] using hlog
  | succ n ih =>
    intro i tc ls log hlog
    have hrec : ∀ i tc ls e, get_missing_lines_for_completion (exec i) t
        (query (completer i) t tc ls).2 = e →
        P ⟨(query (completer i) t tc ls).1, (query (completer i) t tc ls).2, e⟩ := by
      intro i tc ls e he; rw [← he]; exact hP i tc ls
    unfold runLoop
    split
    · next ls' heq =>
      split
      · intro r hr
        rcases List.mem_append.1 hr with h | h
        · exact hlog r h
        · rcases List.mem_singleton.1 h with rfl
          exact hrec i tc ls _ heq
      · refine ih (i+1) _ ls' _ ?_
        intro r hr
        rcases List.mem_append.1 hr with h | h
        · exact hlog r h
        · rcases List.mem_singleton.1 h with rfl
          exact hrec i tc ls _ heq
    · next e heq =>
      split
      · refine ih (i+1) "" ls _ ?_
        intro r hr
        rcases List.mem_append.1 hr with h | h
        · exact hlog r h
        · rcases List.mem_singleton.1 h with rfl
          exact hrec i tc ls _ heq
      · intro r hr
        rcases List.mem_append.1 hr with h | h
        · exact hlog r h
        · rcases List.mem_singleton.1 h with rfl
          exact hrec i tc ls _ heq

theorem runLoop_first_record (completer : Nat → String → String)
    (exec : Nat → String → ExecOutcome) (t : String) :
    ∀ fuel i ls log, 1 ≤ fuel →
      ∃ r, (runLoop completer exec t fuel i "" ls log).log.get? log.length = some r ∧
        r.prompt = construct_prompt t := by
  intro fuel i ls log hfuel
  obtain ⟨n, rfl⟩ : ∃ n, fuel = n + 1 := ⟨fuel - 1, by omega⟩
  have hprompt : (query (completer i) t "" ls).1 = construct_prompt t := by
    simp [query]
  unfold runLoop
  split
  · next ls' heq =>
    split
    · exact ⟨_, List.get?_concat_length _ _, hprompt⟩
    · obtain ⟨new, hnew, -⟩ := runLoop_log_extend completer exec t n (i+1)
        ((query (completer i) t "" ls).2) ls'
        (log ++ [⟨(query (completer i) t "" ls).1, (query (completer i) t "" ls).2,
          Except.ok ls'⟩])
      refine ⟨⟨(query (completer i) t "" ls).1, (query (completer i) t "" ls).2,
        Except.ok ls'⟩, ?_, hprompt⟩
      rw [hnew, List.get?_append (by simp)]
      exact List.get?_concat_length _ _
  · next e heq =>
    split
    · obtain ⟨new, hnew, -⟩ := runLoop_log_extend completer exec t n (i+1) "" ls
        (log ++ [⟨(query (completer i) t "" ls).1, (query (completer i) t "" ls).2,
          Except.error e⟩])
      refine ⟨⟨(query (completer i) t "" ls).1, (query (completer i) t "" ls).2,
        Except.error e⟩, ?_, hprompt⟩
      rw [hnew, List.get?_append (by simp)]
      exact List.get?_concat_length _ _
    · exact ⟨_, List.get?_concat_length _ _, hprompt⟩

theorem runLoop_empty_breaks (completer : Nat → String → String)
    (exec : Nat → String → ExecOutcome) (t : String) :
    ∀ fuel i tc ls log j r, log.length ≤ j →
      (runLoop completer exec t fuel i tc ls log).log.get? j = some r →
      r.outcome = Except.ok [] →
      (runLoop completer exec t fuel i tc ls log).status = SessionStatus.covered ∧
      (runLoop completer exec t fuel i tc ls log).log.length = j + 1 := by
  intro fuel
  induction fuel with
  | zero =>
    intro i tc ls log j r hj hr _
    simp only [runLoop] at hr
    obtain ⟨hlt, -⟩ := List.get?_eq_some.1 hr
    omega
  | succ n ih =>
    intro i tc ls log j r hj hr hout
    revert hr
    unfold runLoop
    split
    · next ls' heq =>
      split
      · next hlen =>
        intro hr
        obtain ⟨hlt, -⟩ := List.get?_eq_some.1 hr
        simp only [List.length_append, List.length_singleton] at hlt
        have hj0 : j = log.length := by omega
        subst hj0
        rw [List.get?_concat_length] at hr
        rcases Option.some.inj hr with rfl
        simp
      · next hlen =>
        intro hr
        obtain ⟨new, hnew, -⟩ := runLoop_log_extend completer exec t n (i+1)
          ((query (completer i) t tc ls).2) ls'
          (log ++ [⟨(query (completer i) t tc ls).1, (query (completer i) t tc ls).2,
            Except.ok ls'⟩])
        rcases Nat.eq_or_lt_of_le hj with hj0 | hj1
        · rw [hnew, List.get?_append (by simp [← hj0])] at hr
          rw [← hj0, List.get?_concat_length] at hr
          rcases Option.some.inj hr with rfl
          simp only [AttemptRecord.mk.injEq] at hout
          rcases Except.ok.inj hout with rfl
          simp at hlen
        · exact ih (i+1) _ ls' _ j r (by simpa using hj1) hr hout
    · next e heq =>
      split
      · next hsyn =>
        intro hr
        obtain ⟨new, hnew, -⟩ := runLoop_log_extend completer exec t n (i+1) "" ls
          (log ++ [⟨(query (completer i) t tc ls).1, (query (completer i) t tc ls).2,
            Except.error e⟩])
        rcases Nat.eq_or_lt_of_le hj with hj0 | hj1
        · rw [hnew, List.get?_append (by simp [← hj0])] at hr
          rw [← hj0, List.get?_concat_length] at hr
          rcases Option.some.inj hr with rfl
          simp at hout
        · exact ih (i+1) "" ls _ j r (by simpa using hj1) hr hout
      · next hsyn =>
        intro hr
        obtain ⟨hlt, -⟩ := List.get?_eq_some.1 hr
        simp only [List.length_append, List.length_singleton] at hlt
        have hj0 : j = log.length := by omega
        subst hj0
        rw [List.get?_concat_length] at hr
        rcases Option.some.inj hr with rfl
        simp at hout

theorem runLoop_uncaught_crashes (completer : Nat → String → String)
    (exec : Nat → String → ExecOutcome) (t : String) :
    ∀ fuel i tc ls log j r e, log.length ≤ j →
      (runLoop completer exec t fuel i tc ls log).log.get? j = some r →
      r.outcome = Except.error e → e ≠ PyExc.syntaxError →
      (runLoop completer exec t fuel i tc ls log).status = SessionStatus.crashed e ∧
      (runLoop completer exec t fuel i tc ls log).log.length = j + 1 := by
  intro fuel
  induction fuel with
  | zero =>
    intro i tc ls log j r e hj hr _ _
    simp only [runLoop] at hr
    obtain ⟨hlt, -⟩ := List.get?_eq_some.1 hr
    omega
  | succ n ih =>
    intro i tc ls log j r e hj hr hout hne
    revert hr
    unfold runLoop
    split
    · next ls' heq =>
      split
      · next hlen =>
        intro hr
        obtain ⟨hlt, -⟩ := List.get?_eq_some.1 hr
        simp only [List.length_append, List.length_singleton] at hlt
        have hj0 : j = log.length := by omega
        subst hj0
        rw [List.get?_concat_length] at hr
        rcases Option.some.inj hr with rfl
        simp at hout
      · next hlen =>
        intro hr
        obtain ⟨new, hnew, -⟩ := runLoop_log_extend completer exec t n (i+1)
          ((query (completer i) t tc ls).2) ls'
          (log ++ [⟨(query (completer i) t tc ls).1, (query (completer i) t tc ls).2,
            Except.ok ls'⟩])
        rcases Nat.eq_or_lt_of_le hj with hj0 | hj1
        · rw [hnew, List.get?_append (by simp [← hj0])] at hr
          rw [← hj0, List.get?_concat_length] at hr
          rcases Option.some.inj hr with rfl
          simp at hout
        · exact ih (i+1) _ ls' _ j r e (by simpa using hj1) hr hout hne
    · next e' heq =>
      split
      · next hsyn =>
        intro hr
        obtain ⟨new, hnew, -⟩ := runLoop_log_extend completer exec t n (i+1) "" ls
          (log ++ [⟨(query (completer i) t tc ls).1, (query (completer i) t tc ls).2,
            Except.error e'⟩])
        rcases Nat.eq_or_lt_of_le hj with hj0 | hj1
        · rw [hnew, List.get?_append (by simp [← hj0])] at hr
          rw [← hj0, List.get?_concat_length] at hr
          rcases Option.some.inj hr with rfl
          simp only [AttemptRecord.mk.injEq] at hout
          rcases Except.error.inj hout with rfl
          exact absurd hsyn hne
        · exact ih (i+1) "" ls _ j r e (by simpa using hj1) hr hout hne
      · next hsyn =>
        intro hr
        obtain ⟨hlt, -⟩ := List.get?_eq_some.1 hr
        simp only [List.length_append, List.length_singleton] at hlt
        have hj0 : j = log.length := by omega
        subst hj0
        rw [List.get?_concat_length] at hr
        rcases Option.some.inj hr with rfl
        simp only [AttemptRecord.mk.injEq] at hout
        rcases Except.error.inj hout with rfl
        simp

theorem runLoop_syntax_reset (completer : Nat → String → String)
    (exec : Nat → String → ExecOutcome) (t : String) :
    ∀ fuel i tc ls log j r, log.length ≤ j →
      (runLoop completer exec t fuel i tc ls log).log.get? j = some r →
      r.outcome = Except.error PyExc.syntaxError →
      j + 1 < log.length + fuel →
      ∃ r', (runLoop completer exec t fuel i tc ls log).log.get? (j + 1) = some r' ∧
        r'.prompt = construct_prompt t := by
  intro fuel
  induction fuel with
  | zero =>
    intro i tc ls log j r hj hr _ _
    simp only [runLoop] at hr
    obtain ⟨hlt, -⟩ := List.get?_eq_some.1 hr
    omega
  | succ n ih =>
    intro i tc ls log j r hj hr hout hbudget
    revert hr
    unfold runLoop
    split
    · next ls' heq =>
      split
      · next hlen =>
        intro hr
        obtain ⟨hlt, -⟩ := List.get?_eq_some.1 hr
        simp only [List.length_append, List.length_singleton] at hlt
        have hj0 : j = log.length := by omega
        subst hj0
        rw [List.get?_concat_length] at hr
        rcases Option.some.inj hr with rfl
        simp at hout
      · next hlen =>
        intro hr
        obtain ⟨new, hnew, -⟩ := runLoop_log_extend completer exec t n (i+1)
          ((query (completer i) t tc ls).2) ls'
          (log ++ [⟨(query (completer i) t tc ls).1, (query (completer i) t tc ls).2,
            Except.ok ls'⟩])
        rcases Nat.eq_or_lt_of_le hj with hj0 | hj1
        · rw [hnew, List.get?_append (by simp [← hj0])] at hr
          rw [← hj0, List.get?_concat_length] at hr
          rcases Option.some.inj hr with rfl
          simp at hout
        · exact ih (i+1) _ ls' _ j r (by simpa using hj1) hr hout
            (by simp only [List.length_append, List.length_singleton]; omega)
    · next e' heq =>
      split
      · next hsyn =>
        intro hr
        obtain ⟨new, hnew, -⟩ := runLoop_log_extend completer exec t n (i+1) "" ls
          (log ++ [⟨(query (completer i) t tc ls).1, (query (completer i) t tc ls).2,
            Except.error e'⟩])
        rcases Nat.eq_or_lt_of_le hj with hj0 | hj1
        · have hn1 : 1 ≤ n := by omega
          obtain ⟨r', hr', hprompt⟩ := runLoop_first_record completer exec t n (i+1) ls
            (log ++ [⟨(query (completer i) t tc ls).1, (query (completer i) t tc ls).2,
              Except.error e'⟩]) hn1
          refine ⟨r', ?_, hprompt⟩
          simpa [← hj0] using hr'
        · exact ih (i+1) "" ls _ j r (by simpa using hj1) hr hout
            (by simp only [List.length_append, List.length_singleton]; omega)
      · next hsyn =>
        intro hr
        obtain ⟨hlt, -⟩ := List.get?_eq_some.1 hr
        simp only [List.length_append, List.length_singleton] at hlt
        have hj0 : j = log.length := by omega
        subst hj0
        rw [List.get?_concat_length] at hr
        rcases Option.some.inj hr with rfl
        simp only [AttemptRecord.mk.injEq] at hout
        rcases Except.error.inj hout with rfl
        exact absurd rfl hsyn

theorem get_missing_lines_error_origin (ex : String → ExecOutcome)
    (t resp : String) (e : PyExc)
    (h : get_missing_lines_for_completion ex t resp = Except.error e) :
    e = PyExc.syntaxError ∨
      ex (composeArtifact t resp (collect_test_functions resp)) = ExecOutcome.raises e := by
  by_cases hnames : collect_test_functions resp = []
  · simp only [get_missing_lines_for_completion, hnames, if_pos] at h
    exact Or.inl (Except.error.inj h).symm
  · simp only [get_missing_lines_for_completion, hnames, if_neg, if_false] at h
    revert h
    unfold get_missing_coverage_lines
    cases hex : ex (composeArtifact t resp (collect_test_functions resp)) with
    | ok missing => intro h; simp at h
    | raises e' =>
      intro h
      simp only at h
      rcases Except.error.inj h with rfl
      exact Or.inr rfl

theorem runLoop_status_no_crash (completer : Nat → String → String)
    (exec : Nat → String → ExecOutcome) (t : String)
    (hexec : ∀ i a e, exec i a = ExecOutcome.raises e → e = PyExc.syntaxError) :
    ∀ fuel i tc ls log,
      (runLoop completer exec t fuel i tc ls log).status = SessionStatus.covered ∨
      (runLoop completer exec t fuel i tc ls log).status = SessionStatus.budgetExhausted := by
  intro fuel
  induction fuel with
  | zero => intro i tc ls log; exact Or.inr rfl
  | succ n ih =>
    intro i tc ls log
    unfold runLoop
    split
    · next ls' heq =>
      split
      · exact Or.inl rfl
      · exact ih (i+1) _ ls' _
    · next e heq =>
      split
      · exact ih (i+1) "" ls _
      · next hsyn =>
        rcases get_missing_lines_error_origin (exec i) t _ e heq with h | h
        · exact absurd h hsyn
        · exact absurd (hexec i _ e h) hsyn

theorem get_missing_lines_ok_shape (ex : String → ExecOutcome)
    (t resp : String) (ls : List String)
    (h : get_missing_lines_for_completion ex t resp = Except.ok ls) :
    ∃ ns : List Nat, ls = ns.map (fun n => toString n) ∧
      List.Sorted (· < ·) ns ∧ ∀ n ∈ ns, n < countNewlines t := by
  by_cases hnames : collect_test_functions resp = []
  · simp [get_missing_lines_for_completion, hnames] at h
  · simp only [get_missing_lines_for_completion, hnames, if_neg, if_false] at h
    revert h
    unfold get_missing_coverage_lines
    cases hex : ex (composeArtifact t resp (collect_test_functions resp)) with
    | raises e => intro h; simp at h
    | ok missing =>
      intro h
      simp only [Except.ok.injEq] at h
      refine ⟨(pySortedOfFinset missing).filter (fun ln => decide (ln < countNewlines t)), ?_, ?_, ?_⟩
      · rw [← h]
      · exact List.Pairwise.sublist (List.filter_sublist _) (pySortedOfFinset_sorted_lt missing)
      · intro n hn
        simpa using (List.mem_filter.1 hn).2

theorem countNL_le_splitlinesL : ∀ xs : List Char, countNL xs ≤ (splitlinesL xs).length := by
  intro xs
  induction xs using splitlinesL.induct with
  | case1 => simp [countNL, splitlinesL]
  | case2 rest ih =>
    simp [countNL, splitlinesL, List.count_cons] at *
    omega
  | case3 rest h ih =>
    simp [countNL, splitlinesL, List.count_cons] at *
    omega
  | case4 rest ih =>
    simp [countNL, splitlinesL, List.count_cons] at *
    omega
  | case5 c rest h1 h2 h3 hsl ih =>
    have hc : (c == '\n') = false := by
      cases hb : c == '\n'
      · rfl
      · exact absurd (by simpa using hb) h3
    simp [countNL, splitlinesL, List.count_cons, hsl, hc] at *
    omega
  | case6 c rest h1 h2 h3 l ls hsl ih =>
    have hc : (c == '\n') = false := by
      cases hb : c == '\n'
      · rfl
      · exact absurd (by simpa using hb) h3
    simp [countNL, splitlinesL, List.count_cons, hsl, hc] at *
    omega

theorem composeArtifact_split (t r : String) (names : List String) :
    composeArtifact t r names =
      ("\n" ++ t ++ "\n\n") ++
        (r ++ "\n\n" ++ String.intercalate "\n" (names.map create_call) ++ "\n    ") := by
  simp [composeArtifact, String.append_assoc]

theorem countNewlines_prefix (t : String) :
    countNewlines ("\n" ++ t ++ "\n\n") + 1 = testRegionFirstLine t := by
  simp only [countNewlines, countNL, testRegionFirstLine, String.data_append,
    List.count_append]
  have h1 : List.count '\n' "\n".data = 1 := by decide
  have h2 : List.count '\n' "\n\n".data = 2 := by decide
  rw [h1, h2]
  omega

/-- The number of newlines of a string never exceeds its number of lines. -/
theorem countNewlines_le_lineCount (s : String) :
    countNewlines s ≤ pythonLineCount s := by
  simpa [countNewlines, pythonLineCount, pythonSplitlines] using
    countNL_le_splitlinesL s.data

/-! ## The claims -/

/-- Claim C1, corrected.  For every attempt budget `B` and all behaviours of
the completion service and of artifact execution, the refinement loop makes
at most `B` attempts (and, being structurally recursive on the budget, always
terminates); and provided no artifact execution raises an exception of a
class other than `SyntaxError`, the final status is `covered` or
`budgetExhausted`.  (Without that proviso the claim is false — see the
counterexample — because the loop catches only `SyntaxError`, so any other
exception propagates and the session ends in neither status.) -/
theorem claim_C1 (completer : Nat → String → String)
    (exec : Nat → String → ExecOutcome) (t : String) (B : Nat) :
    (runSession completer exec t B).log.length ≤ B ∧
    ((∀ i a e, exec i a = ExecOutcome.raises e → e = PyExc.syntaxError) →
      (runSession completer exec t B).status = SessionStatus.covered ∨
      (runSession completer exec t B).status = SessionStatus.budgetExhausted) := by
  constructor
  · obtain ⟨new, hnew, hlen⟩ := runLoop_log_extend completer exec t B 0 "" [] []
    simpa [runSession, hnew] using hlen
  · intro hexec
    exact runLoop_status_no_crash completer exec t hexec B 0 "" [] []

def c1wCompleter : Nat → String → String := fun _ _ => "def test_a():\n    pass"

def c1wExec : Nat → String → ExecOutcome := fun _ _ => ExecOutcome.ok ∅

/-- Witness for claim C1 at a concrete session: a parseable response and an
artifact execution that reports full coverage. -/
theorem claim_C1_witness :
    (runSession c1wCompleter c1wExec "x = 1\n" 3).log.length ≤ 3 ∧
    ((runSession c1wCompleter c1wExec "x = 1\n" 3).status = SessionStatus.covered ∨
      (runSession c1wCompleter c1wExec "x = 1\n" 3).status = SessionStatus.budgetExhausted) :=
  ⟨(claim_C1 c1wCompleter c1wExec "x = 1\n" 3).1,
    (claim_C1 c1wCompleter c1wExec "x = 1\n" 3).2
      (fun _ _ _ h => ExecOutcome.noConfusion h)⟩

def c1xCompleter : Nat → String → String := fun _ _ => "def test_a():\n    1/0"

def c1xExec : Nat → String → ExecOutcome := fun _ _ => ExecOutcome.raises PyExc.otherError

/-- Counterexample to claim C1 as stated: with budget 1, a response whose
composed artifact raises a `ZeroDivisionError`-like runtime error at module
level, the session ends in neither `covered` nor `budgetExhausted` — the
uncaught exception propagates. -/
theorem claim_C1_counterexample :
    (runSession c1xCompleter c1xExec "x = 1\n" 1).status ≠ SessionStatus.covered ∧
    (runSession c1xCompleter c1xExec "x = 1\n" 1).status ≠ SessionStatus.budgetExhausted := by
  decide

/-- Claim C2, confirmed.  If attempt `i` of a session records an empty
filtered missing-line set, the session's final status is `covered` and the
transcript ends at attempt `i` (no attempt with a greater index is made). -/
theorem claim_C2 (completer : Nat → String → String)
    (exec : Nat → String → ExecOutcome) (t : String) (B i : Nat)
    (r : AttemptRecord)
    (h1 : (runSession completer exec t B).log.get? i = some r)
    (h2 : r.outcome = Except.ok []) :
    (runSession completer exec t B).status = SessionStatus.covered ∧
    (runSession completer exec t B).log.length = i + 1 :=
  runLoop_empty_breaks completer exec t B 0 "" [] [] i r (Nat.zero_le i) h1 h2

def c2wCompleter : Nat → String → String :=
  fun _ _ => "def test_a():\n    assert f(1) == 1"

def c2wExec : Nat → String → ExecOutcome := fun _ _ => ExecOutcome.ok ∅

def c2wTarget : String := "def f(x):\n    return x\n"

def c2wRec : AttemptRecord :=
  (runSession c2wCompleter c2wExec c2wTarget 5).log.getD 0 ⟨"", "", Except.ok []⟩

/-- Witness for claim C2: a first attempt with full coverage ends the session
immediately with status `covered`. -/
theorem claim_C2_witness :
    (runSession c2wCompleter c2wExec c2wTarget 5).status = SessionStatus.covered ∧
    (runSession c2wCompleter c2wExec c2wTarget 5).log.length = 0 + 1 :=
  claim_C2 c2wCompleter c2wExec c2wTarget 5 0 c2wRec (by rfl) (by rfl)

/-- Claim C3, confirmed.  Every element of every recorded (filtered)
missing-line set is the decimal representation of a number strictly below the
target's line count, and strictly below the first artifact line on which the
injected response/invocation code can appear (so no line of the injected test
or invocation code is ever reported as missing against the target). -/
theorem claim_C3 (completer : Nat → String → String)
    (exec : Nat → String → ExecOutcome) (t : String) (B : Nat)
    (r : AttemptRecord) (hr : r ∈ (runSession completer exec t B).log)
    (ls : List String) (hout : r.outcome = Except.ok ls) :
    ∀ s ∈ ls, ∃ n : Nat, s = toString n ∧ n < pythonLineCount t ∧
      n < testRegionFirstLine t := by
  refine runLoop_log_mem completer exec t
    (fun rec => ∀ ls, rec.outcome = Except.ok ls →
      ∀ s ∈ ls, ∃ n : Nat, s = toString n ∧ n < pythonLineCount t ∧
        n < testRegionFirstLine t)
    ?_ B 0 "" [] [] (by simp) r hr ls hout
  intro i tc lsq ls' hout' s hs
  obtain ⟨ns, hmap, hsort, hbound⟩ := get_missing_lines_ok_shape (exec i) t _ ls' hout'
  subst hmap
  obtain ⟨n, hn, rfl⟩ := List.mem_map.1 hs
  refine ⟨n, rfl, ?_, ?_⟩
  · exact lt_of_lt_of_le (hbound n hn) (countNewlines_le_lineCount t)
  · exact lt_of_lt_of_le (hbound n hn)
      (by simp only [testRegionFirstLine]; omega)

def c3wCompleter : Nat → String → String := fun _ _ => "def test_a():\n    pass"

def c3wExec : Nat → String → ExecOutcome := fun _ _ => ExecOutcome.ok {2, 50}

def c3wTarget : String := "a\nb\nc\nd\ne\n"

def c3wRec : AttemptRecord :=
  (runSession c3wCompleter c3wExec c3wTarget 1).log.getD 0 ⟨"", "", Except.ok []⟩

/-- Witness for claim C3: the coverage engine reports missing lines 2 and 50
for the composed artifact; only line 2 survives the filter, and it is below
the five-line target's line count and below the start of the test region. -/
theorem claim_C3_witness :
    ∃ n : Nat, "2" = toString n ∧ n < pythonLineCount c3wTarget ∧
      n < testRegionFirstLine c3wTarget :=
  claim_C3 c3wCompleter c3wExec c3wTarget 1 c3wRec
    (List.get?_mem
      (by rfl : (runSession c3wCompleter c3wExec c3wTarget 1).log.get? 0 = some c3wRec))
    ["2"] (by rfl) "2" (by simp)

/-- Claim C4, corrected.  Only `SyntaxError` is caught at the attempt
boundary: if attempt `j` raises any other exception class, the session
immediately ends with that exception propagating (status `crashed`), with no
further attempt; if attempt `j` raises `SyntaxError`, the failure is
recoverable — when budget remains, attempt `j + 1` is made and its prompt is
rebuilt in the initial form (the test code was discarded). -/
theorem claim_C4 (completer : Nat → String → String)
    (exec : Nat → String → ExecOutcome) (t : String) (B j : Nat)
    (r : AttemptRecord)
    (hr : (runSession completer exec t B).log.get? j = some r) :
    (∀ e, r.outcome = Except.error e → e ≠ PyExc.syntaxError →
      (runSession completer exec t B).status = SessionStatus.crashed e ∧
      (runSession completer exec t B).log.length = j + 1) ∧
    (r.outcome = Except.error PyExc.syntaxError → j + 1 < B →
      ∃ r', (runSession completer exec t B).log.get? (j + 1) = some r' ∧
        r'.prompt = construct_prompt t) := by
  constructor
  · intro e hout hne
    exact runLoop_uncaught_crashes completer exec t B 0 "" [] [] j r e
      (Nat.zero_le j) hr hout hne
  · intro hout hb
    exact runLoop_syntax_reset completer exec t B 0 "" [] [] j r
      (Nat.zero_le j) hr hout (by simpa using hb)

def c4xCompleter : Nat → String → String :=
  fun _ _ => "def test_b():\n    x = unknown_name"

def c4xExec : Nat → String → ExecOutcome :=
  fun _ _ => ExecOutcome.raises PyExc.otherError

/-- Counterexample to claim C4 as stated: with budget 2 and a first attempt
whose artifact execution raises a non-`SyntaxError` runtime error (here a
`NameError`-like class), the session is not retried within the remaining
budget — it ends after one attempt with the exception propagating past the
controller. -/
theorem claim_C4_counterexample :
    (runSession c4xCompleter c4xExec "y = 2\n" 2).status =
      SessionStatus.crashed PyExc.otherError ∧
    (runSession c4xCompleter c4xExec "y = 2\n" 2).log.length = 1 := by
  decide

def c4wCompleter : Nat → String → String :=
  fun _ _ => "def test_c():\n    raise ValueError"

def c4wExec : Nat → String → ExecOutcome :=
  fun _ _ => ExecOutcome.raises PyExc.otherError

def c4wRec : AttemptRecord :=
  (runSession c4wCompleter c4wExec "z = 3\n" 3).log.getD 0 ⟨"", "", Except.ok []⟩

/-- Witness for the corrected claim C4 at a concrete session: a first attempt
raising a non-`SyntaxError` exception ends the session as `crashed` after
exactly one attempt. -/
theorem claim_C4_witness :
    (runSession c4wCompleter c4wExec "z = 3\n" 3).status =
      SessionStatus.crashed PyExc.otherError ∧
    (runSession c4wCompleter c4wExec "z = 3\n" 3).log.length = 0 + 1 :=
  (claim_C4 c4wCompleter c4wExec "z = 3\n" 3 0 c4wRec (by rfl)).1
    PyExc.otherError (by rfl) (by decide)

/-- Claim C7, confirmed.  If attempt `i`'s response parses to zero test-entry
points then, provided budget remains, attempt `i + 1` is made (the session is
not aborted) and its prompt is built with the initial-prompt form — the test
code was reset to the empty string. -/
theorem claim_C7 (completer : Nat → String → String)
    (exec : Nat → String → ExecOutcome) (t : String) (B i : Nat)
    (r : AttemptRecord)
    (h1 : (runSession completer exec t B).log.get? i = some r)
    (h2 : collect_test_functions r.response = [])
    (h3 : i + 1 < B) :
    ∃ r', (runSession completer exec t B).log.get? (i + 1) = some r' ∧
      r'.prompt = construct_prompt t := by
  have hout : r.outcome = Except.error PyExc.syntaxError := by
    have hP : ∀ k tc lsq,
        collect_test_functions (query (completer k) t tc lsq).2 = [] →
        get_missing_lines_for_completion (exec k) t (query (completer k) t tc lsq).2 =
          Except.error PyExc.syntaxError := by
      intro k tc lsq hcol
      simp only [get_missing_lines_for_completion, hcol, if_pos]
    exact runLoop_log_mem completer exec t
      (fun rec => collect_test_functions rec.response = [] →
        rec.outcome = Except.error PyExc.syntaxError)
      (fun k tc lsq => hP k tc lsq) B 0 "" [] [] (by simp)
      r (List.get?_mem h1) h2
  exact runLoop_syntax_reset completer exec t B 0 "" [] [] i r
    (Nat.zero_le i) h1 hout (by simpa using h3)

def c7wCompleter : Nat → String → String :=
  fun i _ => if i = 0 then "no tests here" else "def test_a():\n    pass"

def c7wExec : Nat → String → ExecOutcome := fun _ _ => ExecOutcome.ok {2}

def c7wTarget : String := "p\nq\nr\ns\n"

def c7wRec : AttemptRecord :=
  (runSession c7wCompleter c7wExec c7wTarget 2).log.getD 0 ⟨"", "", Except.ok []⟩

/-- Witness for claim C7: an unparseable first response is followed (budget
permitting) by a second attempt whose prompt is the initial form. -/
theorem claim_C7_witness :
    ∃ r', (runSession c7wCompleter c7wExec c7wTarget 2).log.get? (0 + 1) = some r' ∧
      r'.prompt = construct_prompt c7wTarget :=
  claim_C7 c7wCompleter c7wExec c7wTarget 2 0 c7wRec (by rfl) (by rfl) (by decide)

/-- Claim C6, confirmed.  If the parsed test-entry-point list is empty,
`get_missing_lines_for_completion` raises for that attempt (the source's
`raise SyntaxError()`, the spec's `NoTestFoundError` case) without consulting
the execution/coverage oracle at all (its result is the same for every
oracle, i.e. no artifact is composed or measured); if the list is non-empty,
that raise site is never reached — any error the call returns comes from the
oracle's execution of the composed artifact. -/
theorem claim_C6 (exec exec' : String → ExecOutcome) (t resp : String) :
    (collect_test_functions resp = [] →
      get_missing_lines_for_completion exec t resp = Except.error PyExc.syntaxError ∧
      get_missing_lines_for_completion exec t resp =
        get_missing_lines_for_completion exec' t resp) ∧
    (collect_test_functions resp ≠ [] → ∀ e,
      get_missing_lines_for_completion exec t resp = Except.error e →
      exec (composeArtifact t resp (collect_test_functions resp)) =
        ExecOutcome.raises e) := by
  constructor
  · intro h
    constructor <;> simp [get_missing_lines_for_completion, h]
  · intro h e herr
    simp only [get_missing_lines_for_completion, h, if_neg, if_false] at herr
    revert herr
    unfold get_missing_coverage_lines
    cases hex : exec (composeArtifact t resp (collect_test_functions resp)) with
    | ok missing => intro herr; simp at herr
    | raises e' =>
      intro herr
      simp only at herr
      rcases Except.error.inj herr with rfl
      rfl

def c6wExec : String → ExecOutcome := fun _ => ExecOutcome.ok ∅

def c6wExec2 : String → ExecOutcome := fun _ => ExecOutcome.raises PyExc.otherError

/-- Witness for claim C6: a response with no test declaration makes
`get_missing_lines_for_completion` raise the no-test `SyntaxError`, and the
result is the same under two oracles that disagree on every artifact. -/
theorem claim_C6_witness :
    get_missing_lines_for_completion c6wExec "t = 0\n" "no test functions" =
      Except.error PyExc.syntaxError ∧
    get_missing_lines_for_completion c6wExec "t = 0\n" "no test functions" =
      get_missing_lines_for_completion c6wExec2 "t = 0\n" "no test functions" :=
  (claim_C6 c6wExec c6wExec2 "t = 0\n" "no test functions").1 (by rfl)

/-- Claim C9, confirmed.  When the current test code is empty, `query` builds
the initial prompt from the target code alone: the missing-line argument has
no influence on the prompt text. -/
theorem claim_C9 (completer : String → String) (t tc : String)
    (l1 l2 : List String) (h : tc = "") :
    (query completer t tc l1).1 = (query completer t tc l2).1 := by
  subst h; rfl

/-- Witness for claim C9: two different missing-line lists yield the same
prompt when the test code is empty. -/
theorem claim_C9_witness :
    (query (fun _ => "resp") "code" "" ["1"]).1 =
      (query (fun _ => "resp") "code" "" ["2"]).1 :=
  claim_C9 (fun _ => "resp") "code" "" ["1"] ["2"] rfl

/-- Claim C10, confirmed.  A successful result of
`get_missing_lines_for_completion` is a list of decimal string
representations of line numbers (each element is `str(n)` for some natural
`n`), and the underlying numbers appear in (strictly) ascending order. -/
theorem claim_C10 (exec : String → ExecOutcome) (t resp : String)
    (ls : List String)
    (h : get_missing_lines_for_completion exec t resp = Except.ok ls) :
    ∃ ns : List Nat, ls = ns.map (fun n => toString n) ∧
      List.Sorted (· < ·) ns := by
  obtain ⟨ns, hmap, hsort, -⟩ := get_missing_lines_ok_shape exec t resp ls h
  exact ⟨ns, hmap, hsort⟩

def c10wExec : String → ExecOutcome := fun _ => ExecOutcome.ok {3, 1, 50}

/-- Witness for claim C10: the coverage oracle reports the set `{3, 1, 50}`;
the function returns `["1", "3"]`, decimal strings in ascending numeric
order. -/
theorem claim_C10_witness :
    ∃ ns : List Nat, ["1", "3"] = ns.map (fun n => toString n) ∧
      List.Sorted (· < ·) ns :=
  claim_C10 c10wExec "a\nb\nc\nd\ne\n" "def test_a():\n    pass" ["1", "3"] (by rfl)

/-! ## Lemmas for the response parser (claim C5) -/

theorem isPrefixL_decompose : ∀ p xs : List Char, isPrefixL p xs = true →
    xs = p ++ xs.drop p.length := by
  intro p
  induction p with
  | nil => intro xs _; simp
  | cons a as ih =>
    intro xs h
    rcases xs with _ | ⟨b, bs⟩
    · simp [isPrefixL] at h
    · simp only [isPrefixL, Bool.and_eq_true, decide_eq_true_eq] at h
      rcases h with ⟨rfl, h2⟩
      simpa using ih bs h2

theorem isPrefixL_self_append : ∀ p q : List Char, isPrefixL p (p ++ q) = true := by
  intro p q
  induction p with
  | nil => rfl
  | cons a as ih => simpa [isPrefixL] using ih

theorem foldl_append_filter_map {α β : Type} (p : α → Bool) (f : α → β) :
    ∀ (l : List α) (acc : List β),
      List.foldl (fun a x => if p x then a ++ [f x] else a) acc l =
        acc ++ (l.filter p).map f := by
  intro l
  induction l with
  | nil => intro acc; simp
  | cons x xs ih =>
    intro acc
    by_cases h : p x
    · simp [List.foldl, h, ih]
    · simp [List.foldl, h, ih]

theorem splitOnL_headD : ∀ (sep xs : List Char),
    (splitOnL sep xs).headD [] = takeUntilSeq sep xs := by
  intro sep xs
  induction xs with
  | nil => rfl
  | cons c cs ih =>
    by_cases h : sep ≠ [] ∧ isPrefixL sep (c :: cs) = true
    · rw [splitOnL_cons_match sep c cs h]
      simp [takeUntilSeq, h]
    · rw [splitOnL_cons_nomatch sep c cs h]
      simp only [List.headD_cons, takeUntilSeq, if_neg h]
      rw [ih]

theorem takeUntilSeq_single (c0 : Char) : ∀ xs : List Char,
    takeUntilSeq [c0] xs = xs.takeWhile (fun c => c != c0) := by
  intro xs
  induction xs with
  | nil => rfl
  | cons c cs ih =>
    by_cases h : c = c0
    · subst h
      simp [takeUntilSeq, isPrefixL, List.takeWhile]
    · have hpre : isPrefixL [c0] (c :: cs) = false := by
        simp only [isPrefixL, Bool.and_eq_true, Bool.and_eq_false_iff]
        left
        simpa using fun hc => h hc.symm
      rw [List.takeWhile]
      have hx : (c != c0) = true := by simpa using h
      rw [hx]
      simp only [takeUntilSeq]
      rw [if_neg (by simp [hpre]), ih]

theorem splitOnL_prefix_match : ∀ (sep m : List Char), sep ≠ [] →
    splitOnL sep (sep ++ m) = [] :: splitOnL sep m := by
  intro sep m hsep
  rcases sep with _ | ⟨a, as⟩
  · exact absurd rfl hsep
  · rw [show ((a :: as) ++ m) = a :: (as ++ m) from rfl]
    rw [splitOnL_cons_match (a :: as) a (as ++ m)
      ⟨hsep, isPrefixL_self_append (a :: as) m⟩]
    rw [show List.drop (a :: as).length (a :: (as ++ m)) = m from List.drop_left _ _]

theorem getD_zero_headD (l : List (List Char)) :
    l.getD 0 ([] : List Char) = l.headD [] := by
  cases l <;> rfl

theorem extractTestName_of_prefix (l : String)
    (h : pyStartsWith l "def test" = true) :
    extractTestName l = pyStrip (String.mk
      ((takeUntilSeq "def".data (l.data.drop 3)).takeWhile (fun c => c != '('))) := by
  have hdef : isPrefixL "def".data l.data = true := by
    have hdecomp := isPrefixL_decompose "def test".data l.data h
    rw [hdecomp]
    have h8 : ("def test".data : List Char) = "def".data ++ " test".data := by decide
    rw [h8, List.append_assoc]
    exact isPrefixL_self_append _ _
  obtain ⟨m, hm⟩ : ∃ m, l.data = "def".data ++ m :=
    ⟨l.data.drop "def".data.length, isPrefixL_decompose "def".data l.data hdef⟩
  have hm3 : l.data.drop 3 = m := by
    rw [hm]
    exact List.drop_left "def".data m
  unfold extractTestName
  rw [hm3, hm]
  rw [splitOnL_prefix_match "def".data m (by decide)]
  rw [show ([] :: splitOnL "def".data m).getD 1 ([] : List Char) =
    (splitOnL "def".data m).getD 0 [] from rfl]
  rw [getD_zero_headD, splitOnL_headD]
  rw [getD_zero_headD, splitOnL_headD]
  rw [show ("(".data : List Char) = ['\x28'] from rfl]
  rw [takeUntilSeq_single]
  rfl

/-- Claim C5, corrected.  `collect_test_functions` returns exactly the
extracted names of the lines that begin — without any leading-whitespace
trimming — with the literal `"def test"`, in order of appearance; each name
is the text after the first occurrence of `"def"`, truncated at the next
occurrence of `"def"` (if any), then truncated at the first `'('` (if any),
then stripped of whitespace.  (The spec's rule — trim leading whitespace
first, and take the whole substring between the keyword and the
parameter-list opener — disagrees with the code; see the counterexample.) -/
theorem claim_C5 (s : String) :
    collect_test_functions s =
      ((pythonSplitlines s).filter (fun l => pyStartsWith l "def test")).map
        (fun l => pyStrip (String.mk
          ((takeUntilSeq "def".data (l.data.drop 3)).takeWhile (fun c => c != '(')))) := by
  unfold collect_test_functions
  rw [foldl_append_filter_map (fun line => pyStartsWith line "def test") extractTestName
    (pythonSplitlines s) []]
  rw [List.nil_append]
  apply List.map_congr_left
  intro l hl
  exact extractTestName_of_prefix l (List.mem_filter.1 hl).2

/-- Counterexample to claim C5 as stated: on the response
`"  def test_a():\ndef test_def(x):"` the code skips the indented
declaration (no leading-whitespace trimming happens) and truncates the second
name at its inner `"def"`, returning `["test_"]`, while the spec's
matching-and-extraction rule yields `["test_a", "test_def"]`. -/
theorem claim_C5_counterexample :
    collect_test_functions "  def test_a():\ndef test_def(x):" = ["test_"] ∧
    specCollectTestFunctions "  def test_a():\ndef test_def(x):" =
      ["test_a", "test_def"] ∧
    (["test_"] : List String) ≠ ["test_a", "test_def"] := by
  decide

/-! ## Lemmas for the artifact composer (claim C8) -/

theorem splitChar_not_mem (c : Char) : ∀ xs : List Char, c ∉ xs →
    splitChar c xs = [xs] := by
  intro xs
  induction xs with
  | nil => intro _; rfl
  | cons x xs ih =>
    intro h
    have hx : ¬x = c := fun hc => h (by simp [hc])
    have hxs : c ∉ xs := fun hc => h (by simp [hc])
    simp only [splitChar, if_neg hx, ih hxs]

theorem splitChar_append_cons (c : Char) : ∀ (xs ys : List Char), c ∉ xs →
    splitChar c (xs ++ c :: ys) = xs :: splitChar c ys := by
  intro xs
  induction xs with
  | nil => intro ys _; simp [splitChar]
  | cons x xs ih =>
    intro ys h
    have hx : ¬x = c := fun hc => h (by simp [hc])
    have hxs : c ∉ xs := fun hc => h (by simp [hc])
    simp only [List.cons_append, splitChar, if_neg hx, List.append_eq]
    rw [ih ys hxs]

theorem takeWhile_append_all (p : Char → Bool) :
    ∀ (xs ys : List Char), xs.all p = true →
      (xs ++ ys).takeWhile p = xs ++ ys.takeWhile p := by
  intro xs
  induction xs with
  | nil => intro ys _; rfl
  | cons x xs ih =>
    intro ys h
    simp only [List.all_cons, Bool.and_eq_true] at h
    simp only [List.cons_append, List.takeWhile_cons, h.1, if_true, ih ys h.2]

theorem takeWhile_append_nil (p : Char → Bool) (xs ys : List Char)
    (hx : xs.takeWhile p = []) (hy : ys.takeWhile p = []) :
    (xs ++ ys).takeWhile p = [] := by
  rcases xs with _ | ⟨x, xs⟩
  · simpa using hy
  · simp only [List.takeWhile_cons] at hx ⊢
    cases hpx : p x with
    | false => simp [hpx]
    | true => rw [hpx] at hx; simp at hx

theorem splitChar_template (nmd : List Char) (h1 : '\n' ∉ nmd) :
    splitChar '\n' ('\n' :: ("    try:".data ++ '\n' ::
        ("        ".data ++ nmd ++ "()".data ++ '\n' ::
          ("    except AssertionError:".data ++ '\n' :: "        pass".data)))) =
      [[], "    try:".data, "        ".data ++ nmd ++ "()".data,
        "    except AssertionError:".data, "        pass".data] := by
  have hmem : '\n' ∉ "        ".data ++ nmd ++ "()".data := by
    intro hmem
    rcases List.mem_append.1 hmem with hBN | hP
    · rcases List.mem_append.1 hBN with hB | hN
      · exact absurd hB (by decide)
      · exact h1 hN
    · exact absurd hP (by decide)
  have step0 : ∀ R : List Char, splitChar '\n' ('\n' :: R) = [] :: splitChar '\n' R := by
    intro R; simp [splitChar]
  rw [step0]
  rw [splitChar_append_cons '\n' "    try:".data _ (by decide)]
  rw [show "        ".data ++ nmd ++ "()".data ++ '\n' ::
      ("    except AssertionError:".data ++ '\n' :: "        pass".data) =
      ("        ".data ++ nmd ++ "()".data) ++ '\n' ::
      ("    except AssertionError:".data ++ '\n' :: "        pass".data) by
    simp [List.append_assoc]]
  rw [splitChar_append_cons '\n' ("        ".data ++ nmd ++ "()".data) _ hmem]
  rw [splitChar_append_cons '\n' "    except AssertionError:".data _ (by decide)]
  rw [splitChar_not_mem '\n' "        pass".data (by decide)]

theorem dedent_norm_template (nmd : List Char) :
    List.map normWSLine [[], "    try:".data,
        "        ".data ++ nmd ++ "()".data,
        "    except AssertionError:".data, "        pass".data] =
      [[], "    try:".data, "        ".data ++ nmd ++ "()".data,
        "    except AssertionError:".data, "        pass".data] := by
  have hA : normWSLine "    try:".data = "    try:".data := by decide
  have hC : normWSLine "    except AssertionError:".data =
      "    except AssertionError:".data := by decide
  have hD : normWSLine "        pass".data = "        pass".data := by decide
  have hE : normWSLine ([] : List Char) = [] := rfl
  have hX : normWSLine ("        ".data ++ nmd ++ "()".data) =
      "        ".data ++ nmd ++ "()".data := by
    unfold normWSLine
    rw [if_neg]
    rintro ⟨-, hall⟩
    rw [List.all_append, List.all_append] at hall
    have hP : ("()".data.all isIndentChar) = false := by decide
    rw [hP] at hall
    simp at hall
  simp only [List.map_cons, List.map_nil, hA, hC, hD, hE, hX]

theorem dedent_margin_template (nmd : List Char)
    (hw : nmd.takeWhile isIndentChar = []) :
    dedentMargin [[], "    try:".data,
        "        ".data ++ nmd ++ "()".data,
        "    except AssertionError:".data, "        pass".data] = "    ".data := by
  have hXne : (("        ".data ++ nmd ++ "()".data).isEmpty) = false := by
    rw [show "        ".data ++ nmd ++ "()".data =
      ' ' :: ("       ".data ++ nmd ++ "()".data) from by simp]
    rfl
  have hXind : lineIndent ("        ".data ++ nmd ++ "()".data) = "        ".data := by
    unfold lineIndent
    rw [List.append_assoc]
    rw [takeWhile_append_all isIndentChar "        ".data (nmd ++ "()".data) (by decide)]
    rw [takeWhile_append_nil isIndentChar nmd "()".data hw (by decide)]
    simp
  unfold dedentMargin
  simp only [List.filter_cons, List.filter_nil, hXne]
  simp only [List.isEmpty_nil, List.isEmpty_cons, Bool.not_true, Bool.not_false,
    Bool.false_eq_true, Bool.true_eq_false, if_false, if_true, ite_true, ite_false]
  have hiA : lineIndent "    try:".data = "    ".data := by decide
  have hiC : lineIndent "    except AssertionError:".data = "    ".data := by decide
  have hiD : lineIndent "        pass".data = "        ".data := by decide
  rw [show List.map lineIndent ["    try:".data,
      "        ".data ++ nmd ++ "()".data,
      "    except AssertionError:".data, "        pass".data] =
    [lineIndent "    try:".data, lineIndent ("        ".data ++ nmd ++ "()".data),
      lineIndent "    except AssertionError:".data,
      lineIndent "        pass".data] from by simp]
  rw [hiA, hiC, hiD, hXind]
  decide

theorem dedent_remove_template (nmd : List Char) :
    List.map (removeMargin "    ".data)
      [[], "    try:".data, "        ".data ++ nmd ++ "()".data,
        "    except AssertionError:".data, "        pass".data] =
      [[], "try:".data, "    ".data ++ nmd ++ "()".data,
        "except AssertionError:".data, "    pass".data] := by
  have hE : removeMargin "    ".data [] = [] := by decide
  have hA : removeMargin "    ".data "    try:".data = "try:".data := by decide
  have hC : removeMargin "    ".data "    except AssertionError:".data =
      "except AssertionError:".data := by decide
  have hD : removeMargin "    ".data "        pass".data = "    pass".data := by decide
  have hX : removeMargin "    ".data ("        ".data ++ nmd ++ "()".data) =
      "    ".data ++ nmd ++ "()".data := by
    unfold removeMargin
    rw [show "        ".data ++ nmd ++ "()".data =
      "    ".data ++ ("    ".data ++ nmd ++ "()".data) from by simp]
    rw [if_pos (isPrefixL_self_append _ _)]
    exact List.drop_left _ _
  simp only [List.map_cons, List.map_nil, hE, hA, hC, hD, hX]

theorem create_call_expand (nm : String) (h1 : '\n' ∉ nm.data)
    (h2 : nm.data.takeWhile isIndentChar = []) :
    create_call nm = "\ntry:\n    " ++ nm ++ "()\nexcept AssertionError:\n    pass" := by
  have hinp : ("\n    try:\n        " ++ nm ++ "()\n    except AssertionError:\n        pass").data
      = '\n' :: ("    try:".data ++ '\n' ::
          ("        ".data ++ nm.data ++ "()".data ++ '\n' ::
            ("    except AssertionError:".data ++ '\n' :: "        pass".data))) := by
    simp only [String.data_append]
    simp [List.append_assoc]
  simp only [create_call, pythonDedent]
  rw [hinp, splitChar_template nm.data h1, dedent_norm_template nm.data,
    dedent_margin_template nm.data h2, dedent_remove_template nm.data]
  apply String.ext
  simp only [String.data_append]
  simp [intercalateChar, List.append_assoc]

theorem splitlinesL_line_chars : ∀ xs : List Char, ∀ l ∈ splitlinesL xs,
    ∀ c ∈ l, c ∈ xs ∧ ¬c = '\n' := by
  intro xs
  induction xs using splitlinesL.induct with
  | case1 => simp [splitlinesL]
  | case2 rest ih =>
    intro l hl c hc
    simp only [splitlinesL, List.mem_cons] at hl
    rcases hl with rfl | hl
    · simp at hc
    · obtain ⟨h5, h6⟩ := ih l hl c hc
      exact ⟨by simp [h5], h6⟩
  | case3 rest h ih =>
    intro l hl c hc
    simp only [splitlinesL, List.mem_cons] at hl
    rcases hl with rfl | hl
    · simp at hc
    · obtain ⟨h5, h6⟩ := ih l hl c hc
      exact ⟨by simp [h5], h6⟩
  | case4 rest ih =>
    intro l hl c hc
    simp only [splitlinesL, List.mem_cons] at hl
    rcases hl with rfl | hl
    · simp at hc
    · obtain ⟨h5, h6⟩ := ih l hl c hc
      exact ⟨by simp [h5], h6⟩
  | case5 c0 rest h1 h2 h3 hsl ih =>
    intro l hl c hc
    simp only [splitlinesL, hsl, List.mem_cons] at hl
    rcases hl with rfl | hl
    · rcases List.mem_singleton.1 hc with rfl
      exact ⟨List.mem_cons_self _ _, h3⟩
    · simp at hl
  | case6 c0 rest h1 h2 h3 l0 ls0 hsl ih =>
    intro l hl c hc
    simp only [splitlinesL, hsl, List.mem_cons] at hl
    rcases hl with rfl | hl
    · rcases List.mem_cons.1 hc with rfl | hc2
      · exact ⟨List.mem_cons_self _ _, h3⟩
      · obtain ⟨h5, h6⟩ := ih l0 (by rw [hsl]; exact List.mem_cons_self _ _) c hc2
        exact ⟨List.mem_cons_of_mem _ h5, h6⟩
    · obtain ⟨h5, h6⟩ := ih l (by rw [hsl]; exact List.mem_cons_of_mem _ hl) c hc
      exact ⟨List.mem_cons_of_mem _ h5, h6⟩

theorem splitOnAux_subset (sep : List Char) :
    ∀ fuel xs l, l ∈ splitOnAux sep fuel xs → ∀ c ∈ l, c ∈ xs := by
  intro fuel
  induction fuel with
  | zero =>
    intro xs l hl c hc
    rcases xs with _ | ⟨x, cs⟩
    · rcases List.mem_singleton.1 hl with rfl
      simp at hc
    · rcases List.mem_singleton.1 hl with rfl
      exact hc
  | succ n ih =>
    intro xs l hl c hc
    rcases xs with _ | ⟨x, cs⟩
    · rcases List.mem_singleton.1 hl with rfl
      simp at hc
    · simp only [splitOnAux] at hl
      by_cases h : sep ≠ [] ∧ isPrefixL sep (x :: cs) = true
      · rw [if_pos h] at hl
        rcases List.mem_cons.1 hl with rfl | hl
        · simp at hc
        · exact List.drop_subset _ _ (ih _ l hl c hc)
      · rw [if_neg h] at hl
        rcases List.mem_cons.1 hl with rfl | hl
        · rcases List.mem_cons.1 hc with rfl | hc2
          · exact List.mem_cons_self _ _
          · cases haux : splitOnAux sep n cs with
            | nil => rw [haux] at hc2; simp at hc2
            | cons hd tl =>
              rw [haux] at hc2
              simp only [List.headD_cons] at hc2
              exact List.mem_cons_of_mem _
                (ih cs hd (by rw [haux]; exact List.mem_cons_self _ _) c hc2)
        · exact List.mem_cons_of_mem _
            (ih cs l (List.mem_of_mem_tail hl) c hc)

theorem splitOnL_subset (sep xs : List Char) (l : List Char)
    (hl : l ∈ splitOnL sep xs) : ∀ c ∈ l, c ∈ xs :=
  splitOnAux_subset sep xs.length xs l hl

theorem getD_mem_or_nil : ∀ (L : List (List Char)) (k : Nat),
    L.getD k [] ∈ L ∨ L.getD k [] = ([] : List Char) := by
  intro L
  induction L with
  | nil => intro k; right; rfl
  | cons a L ih =>
    intro k
    cases k with
    | zero => left; simp
    | succ k =>
      rcases ih k with h | h
      · left; simp only [List.getD_cons_succ]; exact List.mem_cons_of_mem _ h
      · right; simpa using h

theorem dropWhile_subset_chars (p : Char → Bool) :
    ∀ xs : List Char, ∀ c ∈ xs.dropWhile p, c ∈ xs := by
  intro xs
  induction xs with
  | nil => intro c hc; simpa using hc
  | cons x xs ih =>
    intro c hc
    simp only [List.dropWhile_cons] at hc
    by_cases hpx : p x = true
    · rw [if_pos hpx] at hc
      exact List.mem_cons_of_mem _ (ih c hc)
    · rw [if_neg hpx] at hc
      exact hc

theorem stripL_subset (xs : List Char) : ∀ c ∈ stripL xs, c ∈ xs := by
  intro c hc
  unfold stripL at hc
  rw [List.mem_reverse] at hc
  have hc2 := dropWhile_subset_chars isPyWS _ c hc
  rw [List.mem_reverse] at hc2
  exact dropWhile_subset_chars isPyWS _ c hc2

theorem dropWhile_takeWhile_nil (p : Char → Bool) :
    ∀ xs : List Char, (xs.dropWhile p).takeWhile p = [] := by
  intro xs
  induction xs with
  | nil => rfl
  | cons x xs ih =>
    simp only [List.dropWhile_cons]
    by_cases hpx : p x = true
    · rw [if_pos hpx]; exact ih
    · rw [if_neg hpx]
      simp only [List.takeWhile_cons]
      rw [show p x = false from by simpa using hpx]
      simp

theorem dropWhile_suffix_chars (p : Char → Bool) :
    ∀ xs : List Char, xs.dropWhile p <:+ xs := by
  intro xs
  induction xs with
  | nil => exact List.suffix_refl _
  | cons x xs ih =>
    simp only [List.dropWhile_cons]
    by_cases hpx : p x = true
    · rw [if_pos hpx]
      exact ih.trans (List.suffix_cons x xs)
    · rw [if_neg hpx]

theorem takeWhile_nil_of_prefix (p : Char → Bool) (xs ys : List Char)
    (hpre : xs <+: ys) (hy : ys.takeWhile p = []) : xs.takeWhile p = [] := by
  obtain ⟨t, rfl⟩ := hpre
  rcases xs with _ | ⟨x, xs⟩
  · rfl
  · simp only [List.cons_append, List.takeWhile_cons] at hy ⊢
    cases hpx : p x with
    | false => simp
    | true => rw [hpx] at hy; simp at hy

theorem stripL_takeWhile_pyWS (xs : List Char) :
    (stripL xs).takeWhile isPyWS = [] := by
  unfold stripL
  have hpre : ((xs.dropWhile isPyWS).reverse.dropWhile isPyWS).reverse <+:
      xs.dropWhile isPyWS := by
    rw [← List.reverse_suffix]
    rw [List.reverse_reverse]
    exact dropWhile_suffix_chars isPyWS _
  exact takeWhile_nil_of_prefix isPyWS _ _ hpre (dropWhile_takeWhile_nil isPyWS xs)

theorem isIndentChar_isPyWS (c : Char) (h : isIndentChar c = true) :
    isPyWS c = true := by
  simp only [isIndentChar, Bool.or_eq_true, decide_eq_true_eq] at h
  simp only [isPyWS, Bool.or_eq_true, decide_eq_true_eq]
  rcases h with h | h
  · exact Or.inl (Or.inl (Or.inl (Or.inl (Or.inl h))))
  · exact Or.inl (Or.inl (Or.inl (Or.inl (Or.inr h))))

theorem takeWhile_indent_of_pyWS (xs : List Char)
    (h : xs.takeWhile isPyWS = []) : xs.takeWhile isIndentChar = [] := by
  rcases xs with _ | ⟨x, xs⟩
  · rfl
  · simp only [List.takeWhile_cons] at h ⊢
    cases hind : isIndentChar x with
    | false => simp
    | true =>
      rw [isIndentChar_isPyWS x hind] at h
      simp at h

theorem collect_names_clean (s : String) :
    ∀ nm ∈ collect_test_functions s,
      '\n' ∉ nm.data ∧ nm.data.takeWhile isIndentChar = [] := by
  intro nm hnm
  unfold collect_test_functions at hnm
  rw [foldl_append_filter_map (fun line => pyStartsWith line "def test") extractTestName
    (pythonSplitlines s) [], List.nil_append] at hnm
  obtain ⟨l, hl, rfl⟩ := List.mem_map.1 hnm
  have hlmem : l ∈ pythonSplitlines s := (List.mem_filter.1 hl).1
  obtain ⟨l', hl', rfl⟩ := List.mem_map.1 hlmem
  constructor
  · intro hmem
    rw [show (extractTestName (String.mk l')).data =
      stripL ((splitOnL "(".data
        ((splitOnL "def".data l').getD 1 [])).getD 0 []) from rfl] at hmem
    have h1 := stripL_subset _ _ hmem
    rcases getD_mem_or_nil (splitOnL "(".data ((splitOnL "def".data l').getD 1 [])) 0
      with hg | hg
    · have h2 := splitOnL_subset _ _ _ hg _ h1
      rcases getD_mem_or_nil (splitOnL "def".data l') 1 with hg2 | hg2
      · have h3 := splitOnL_subset _ _ _ hg2 _ h2
        exact (splitlinesL_line_chars s.data l' hl' '\n' h3).2 rfl
      · rw [hg2] at h2; simp at h2
    · rw [hg] at h1; simp at h1
  · rw [show (extractTestName (String.mk l')).data =
      stripL ((splitOnL "(".data
        ((splitOnL "def".data l').getD 1 [])).getD 0 []) from rfl]
    exact takeWhile_indent_of_pyWS _ (stripL_takeWhile_pyWS _)

/-- Claim C8, confirmed.  For every target code, response and non-empty
parsed entry-point list, the composed artifact is, in order: the target code,
then the response (test code), then — one per entry point, in list order —
a guarded invocation; each guarded invocation is the `try/except` text that
calls the entry point, and its semantics suppresses exactly the
assertion-failure class, letting every other exception class propagate. -/
theorem claim_C8 (t r : String) (hne : collect_test_functions r ≠ []) :
    composeArtifact t r (collect_test_functions r) =
      "\n" ++ t ++ "\n\n" ++ r ++ "\n\n" ++
        String.intercalate "\n" ((collect_test_functions r).map create_call) ++
        "\n    " ∧
    (∀ nm ∈ collect_test_functions r,
      create_call nm = "\ntry:\n    " ++ nm ++ "()\nexcept AssertionError:\n    pass") ∧
    runGuardedCall (some PyExc.assertionError) = none ∧
    (∀ e, e ≠ PyExc.assertionError → runGuardedCall (some e) = some e) := by
  refine ⟨rfl, ?_, rfl, ?_⟩
  · intro nm hnm
    obtain ⟨hnl, hiw⟩ := collect_names_clean r nm hnm
    exact create_call_expand nm hnl hiw
  · intro e he
    cases e with
    | syntaxError => rfl
    | assertionError => exact absurd rfl he
    | otherError => rfl

/-- Witness for claim C8 at a concrete response with one test entry point:
the guarded invocation text produced for `test_a` is exactly the dedented
`try/except AssertionError` block. -/
theorem claim_C8_witness :
    create_call "test_a" =
      "\ntry:\n    " ++ "test_a" ++ "()\nexcept AssertionError:\n    pass" :=
  (claim_C8 "w = 4\n" "def test_a():\n    assert True" (by decide)).2.1
    "test_a" (by decide)
